import Mathlib

/-
  Verification of the animated-score notation layout engine.

  The definitions below are a shallow embedding of the engine found in
  src/animated_score.js (the full revision of the `AnimatedScore` class
  together with the `MusicAction`/`Note`/`Tempo` value classes and the
  `VisualNote`/`NoteLine`/`QuaverSection` geometry classes).  Pixel
  coordinates, durations in seconds and times in milliseconds are modelled
  as rationals; DOM image handles are modelled as optional pairs
  (image-name index, variant index) since only their identity matters.
-/

/- The two clef symbols, source strings "g" and "f". -/
inductive Clavier
  | g
  | f
deriving DecidableEq, Repr

/- Playback status, source strings "stopped", "playing", "paused". -/
inductive Status
  | stopped
  | playing
  | paused
deriving DecidableEq, Repr

/- The `Note` music action: pitch class 0..11, octave 0..6, duration in
   sixty-fourth-note units. -/
structure NoteAction where
  note : Nat
  octave : Nat
  duration : Nat
deriving DecidableEq, Repr

/- The `MusicAction` union: a note or a tempo change (quarter beats/minute). -/
inductive MusicAction
  | note (n : NoteAction)
  | tempo (t : ℚ)
deriving DecidableEq, Repr

/- `this.noteDuration`: seconds of each figure at 120 bpm, whole note first. -/
def noteDuration : List ℚ := [2, 1, 1/2, 1/4, 1/8, 1/16, 1/32]

/- `this.noteFraqDuration`: duration of each figure in sixty-fourth units. -/
def noteFraqDuration : List Nat := [64, 32, 16, 8, 4, 2, 1]

/- `this.noteVerticalPos`: staff step of each of the 12 pitch classes. -/
def noteVerticalPos : List Int := [0, 0, 1, 1, 2, 3, 3, 4, 4, 5, 5, 6]

/- `ScoreDimensions` (height, padding). -/
structure ScoreDimensions where
  height : ℚ
  padding : ℚ
deriving DecidableEq, Repr

/- The fixed dimensions: `scoreHeight = 29`, `canvasPadding = 20`. -/
def scoreDims : ScoreDimensions := ⟨29, 20⟩

/- `NoteSymbol`: image handle, top-left corner offset, seconds at 120 bpm. -/
structure NoteSymbol where
  img : Option (Nat × Nat)
  corner : ℚ
  duration : ℚ
deriving DecidableEq, Repr

instance : Inhabited NoteSymbol := ⟨⟨none, 0, 0⟩⟩

/- `this.noteSymbols`: for each duration class the two glyph variants.
   Row 5 variant 1 reads `imgs["note32"][5]`, an out-of-range access, so its
   image handle is `none`.  Row 7 is the shared beamed-eighth base glyph. -/
def noteSymbols : List (List NoteSymbol) :=
  [ [⟨some (0, 0), 6, 2⟩, ⟨some (0, 0), 6, 2⟩]
  , [⟨some (1, 0), 26, 1⟩, ⟨some (1, 1), 6, 1⟩]
  , [⟨some (2, 0), 26, 1/2⟩, ⟨some (2, 1), 6, 1/2⟩]
  , [⟨some (3, 0), 26, 1/4⟩, ⟨some (3, 1), 6, 1/4⟩]
  , [⟨some (4, 0), 26, 1/8⟩, ⟨some (4, 1), 6, 1/8⟩]
  , [⟨some (5, 0), 26, 1/16⟩, ⟨none, 6, 1/16⟩]
  , [⟨some (6, 0), 26, 1/32⟩, ⟨some (6, 1), 6, 1/32⟩]
  , [⟨some (7, 0), 6, 0⟩, ⟨some (7, 0), 6, 0⟩] ]

/- `VisualNote`: one drawable note symbol. -/
structure VisualNote where
  img : Option (Nat × Nat)
  verticalPos : Int
  x : ℚ
  y : ℚ
  duration : ℚ
deriving DecidableEq, Repr

instance : Inhabited VisualNote := ⟨⟨none, 0, 0, 0, 0⟩⟩

/- The `VisualNote` constructor. -/
def VisualNote.make (symbol : NoteSymbol) (tempo : ℚ) (verticalPos : Int)
    (dims : ScoreDimensions) : VisualNote :=
  { img := symbol.img
  , verticalPos := verticalPos
  , x := 0
  , y := dims.padding + dims.height - (verticalPos : ℚ) * 3.5 - symbol.corner + 2.5
  , duration := symbol.duration * (120 / tempo) }

/- `VisualNote.changeSymbol`: swap the glyph, recompute `y`. -/
def VisualNote.changeSymbol (v : VisualNote) (symbol : NoteSymbol)
    (dims : ScoreDimensions) : VisualNote :=
  { v with
    img := symbol.img
  , y := dims.padding + dims.height - (v.verticalPos : ℚ) * 3.5 - symbol.corner + 2.5 }

/- `NoteLine`: a note stem (the constant color field is omitted). -/
structure NoteLine where
  x : ℚ
  y : ℚ
  large : ℚ
deriving DecidableEq, Repr

instance : Inhabited NoteLine := ⟨⟨0, 0, 0⟩⟩

/- `QuaverSection`: one horizontal beam segment. -/
structure QuaverSection where
  x : ℚ
  y : ℚ
  toX : ℚ
  toY : ℚ
deriving DecidableEq, Repr

instance : Inhabited QuaverSection := ⟨⟨0, 0, 0, 0⟩⟩

/- One entry of `this.claviers`: a clef together with its activation time. -/
structure ClefRegion where
  clavier : Clavier
  time : ℚ
deriving DecidableEq, Repr

instance : Inhabited ClefRegion := ⟨⟨Clavier.g, 0⟩⟩

/- The generation state `this.gen` created in `setMusicActions`.  The open
   beam-group accumulator `quaverSectionElements` stores the indices of its
   member notes inside `visualNotes` (the source stores object references;
   every reference pushed is to the note just appended, so the index of
   that note identifies it and makes the in-place glyph rewriting of
   `createQuaverSection` expressible as a list update). -/
structure Gen where
  currentTempo : ℚ
  time : ℚ
  x : ℚ
  clavier : Clavier
  quaverSection : Bool
  quaverTotalDuration : ℚ
  quaverSectionElements : List Nat
deriving DecidableEq, Repr

def initialGen (x : ℚ) : Gen :=
  { currentTempo := 120
  , time := 0
  , x := x
  , clavier := Clavier.g
  , quaverSection := false
  , quaverTotalDuration := 0
  , quaverSectionElements := [] }

/- The state of one `AnimatedScore` instance (the fields of the full
   revision of the class; DOM/canvas handles are omitted, the canvas width
   is kept as a number).  `noteFirst` models the property read by
   `checkNoteVisualization`: it is never assigned anywhere in the source,
   hence it stays `none` (JavaScript `undefined`). -/
structure Score where
  velocity : ℚ
  canvasWidth : ℚ
  noteTime : List ℚ
  visualNotes : List VisualNote
  quaverSections : List QuaverSection
  noteLines : List NoteLine
  firstLine : Nat
  lastLine : Nat
  currentQuavSect : List QuaverSection
  lastSect : Nat
  claviers : List ClefRegion
  lastClavier : Nat
  playerLinePos : ℚ
  status : Status
  dx : ℚ
  firstNote : Nat
  lastNote : Nat
  timeSinceStart : ℚ
  lastTime : ℚ
  noteFirst : Option Nat
  gen : Gen
deriving DecidableEq, Repr

/- The constructor state for a container of the given width. -/
def initialScore (velocity width : ℚ) : Score :=
  { velocity := velocity
  , canvasWidth := width
  , noteTime := []
  , visualNotes := []
  , quaverSections := []
  , noteLines := []
  , firstLine := 0
  , lastLine := 0
  , currentQuavSect := []
  , lastSect := 0
  , claviers := []
  , lastClavier := 0
  , playerLinePos := width / 2
  , status := Status.stopped
  , dx := 0
  , firstNote := 0
  , lastNote := 0
  , timeSinceStart := 0
  , lastTime := 0
  , noteFirst := none
  , gen := initialGen (width / 2) }

/- One iteration of the duration-decomposition loop in `createVisualNotes`:
   state (remainder, symbolIds, loop-exited), input (index, class value). -/
def symbolStep (acc : Nat × List Nat × Bool) (p : Nat × Nat) :
    Nat × List Nat × Bool :=
  if acc.2.2 then acc
  else if p.2 ≤ acc.1 then
    (acc.1 - p.2, acc.2.1 ++ [p.1], acc.1 - p.2 == 0)
  else acc

/- The `symbolIds` computed by the first loop of `createVisualNotes`. -/
def symbolIds (d : Nat) : List Nat :=
  (noteFraqDuration.enum.foldl symbolStep (d, [], false)).2.1

/- The duration classes (in sixty-fourth units) of the decomposition. -/
def decompose (d : Nat) : List Nat :=
  (symbolIds d).map (fun i => noteFraqDuration.getD i 0)

/- The clef chosen in `createVisualNotes`: bass for the three lowest
   octaves (`noteID < 12 * 3`), treble otherwise. -/
def clavierFor (note : NoteAction) : Clavier :=
  if note.note + note.octave * 12 < 12 * 3 then Clavier.f else Clavier.g

/- `getNoteVerticalPos`. -/
def getNoteVerticalPos (note : NoteAction) (clavier : Clavier) : Int :=
  let verticalPos := noteVerticalPos.getD note.note 0
  match clavier with
  | Clavier.g => verticalPos + (-2 + ((note.octave : Int) - 3) * 7)
  | Clavier.f => verticalPos + (-4 + ((note.octave : Int) - 1) * 7)

/- The glyph variant selection of `createVisualNotes`:
   `verticalPos > 3 ? this.noteSymbols[id][1] : this.noteSymbols[id][0]`. -/
def chooseSymbol (id : Nat) (verticalPos : Int) : NoteSymbol :=
  if verticalPos > 3 then (noteSymbols.getD id []).getD 1 default
  else (noteSymbols.getD id []).getD 0 default

/- `createVisualNotes`: decompose the duration, pick the clef (recording it
   in `gen.clavier`), and build one `VisualNote` per duration class. -/
def createVisualNotes (s : Score) (note : NoteAction) :
    Score × List VisualNote :=
  let ids := symbolIds note.duration
  let clavier := clavierFor note
  let s := { s with gen := { s.gen with clavier := clavier } }
  let vns := ids.map (fun id =>
    let verticalPos := getNoteVerticalPos note clavier
    VisualNote.make (chooseSymbol id verticalPos) s.gen.currentTempo
      verticalPos scoreDims)
  (s, vns)

/- Beam direction. -/
inductive SectionDir
  | up
  | down
deriving DecidableEq, Repr

/- One iteration of the first loop of `createQuaverSection`: track the
   extreme vertical positions and their indices within the group while
   rewriting each member to the shared beamed-base glyph.  The accumulator
   is (visualNotes, majorVerticalPos, minorVerticalPos, majorID, minorID,
   loop counter). -/
def cqsStep (acc : List VisualNote × Int × Int × Nat × Nat × Nat)
    (idx : Nat) : List VisualNote × Int × Int × Nat × Nat × Nat :=
  let (notes, majP, minP, majID, minID, i) := acc
  let vn := notes.getD idx default
  let (majP, majID) :=
    if vn.verticalPos > majP then (vn.verticalPos, i) else (majP, majID)
  let (minP, minID) :=
    if vn.verticalPos < minP then (vn.verticalPos, i) else (minP, minID)
  let notes :=
    notes.set idx (vn.changeSymbol ((noteSymbols.getD 7 []).getD 0 default) scoreDims)
  (notes, majP, minP, majID, minID, i + 1)

/- The whole first loop of `createQuaverSection`, started from the source's
   initial values `majorVerticalPos = -100`, `minorVerticalPos = 100`. -/
def cqsScan (notes : List VisualNote) (elems : List Nat) :
    List VisualNote × Int × Int × Nat × Nat × Nat :=
  elems.foldl cqsStep (notes, -100, 100, 0, 0, 0)

/- The beam-direction rule of `createQuaverSection`. -/
def sectionDirectionOf (majP minP : Int) : SectionDir :=
  let majorDV := if majP > 3 then majP - 4 else 4 - majP
  let minorDV := if minP > 3 then minP - 4 else 4 - minP
  if majP > 3 ∧ majorDV ≥ minorDV then SectionDir.down else SectionDir.up

/- `var timeFactor = 120 / this.gen.currentTempo`. -/
def timeFactor (tempo : ℚ) : ℚ := 120 / tempo

/- `createQuaverSection`: close the open beam group, emitting the primary
   beam segment, one stem per member and the secondary (sixteenth) beam
   segments, and rewriting every member to the beamed-base glyph. -/
def createQuaverSection (s : Score) : Score :=
  if s.gen.quaverSectionElements.length ≤ 1 then s
  else
    let tf := timeFactor s.gen.currentTempo
    let elems := s.gen.quaverSectionElements
    let scan := cqsScan s.visualNotes elems
    let notes := scan.1
    let majP := scan.2.1
    let minP := scan.2.2.1
    let majID := scan.2.2.2.1
    let minID := scan.2.2.2.2.1
    let dir := sectionDirectionOf majP minP
    let l := elems.length - 1
    let vnAt := fun i => notes.getD (elems.getD i 0) default
    let x := match dir with
      | SectionDir.up => (vnAt 0).x + 8.5
      | SectionDir.down => (vnAt 0).x
    let y := match dir with
      | SectionDir.up => (vnAt majID).y - 18
      | SectionDir.down => (vnAt minID).y + 6 + 18
    let toX := match dir with
      | SectionDir.up => (vnAt l).x + 8.5
      | SectionDir.down => (vnAt l).x
    let qss0 := s.quaverSections ++ [⟨x, y, toX, y⟩]
    let nd16 := noteDuration.getD 4 0 * tf
    let step := fun (acc : List NoteLine × List QuaverSection) (i : Nat) =>
      let (nls, qss) := acc
      let visualNote := vnAt i
      let nls := match dir with
        | SectionDir.up =>
            nls ++ [⟨visualNote.x + 8.5, visualNote.y, y - visualNote.y⟩]
        | SectionDir.down =>
            nls ++ [⟨visualNote.x, visualNote.y, -(visualNote.y - y)⟩]
      let ql := elems.length
      if visualNote.duration = nd16 then
        if i > 0 ∧ (vnAt (i - 1)).duration = nd16 ∧
            (¬ (i + 1 < ql) ∨ (vnAt (i + 1)).duration ≠ nd16) then
          (nls, qss)
        else
          let sx := match dir with
            | SectionDir.up => visualNote.x + 8.5
            | SectionDir.down => visualNote.x
          let sy := match dir with
            | SectionDir.up => y + 4
            | SectionDir.down => y - 4
          if i + 1 < elems.length then
            let nextNote := vnAt (i + 1)
            if nextNote.duration = nd16 then
              let sToX := match dir with
                | SectionDir.up => nextNote.x + 8.5
                | SectionDir.down => nextNote.x
              (nls, qss ++ [⟨sx, sy, sToX, sy⟩])
            else
              let dxNext := (nextNote.x - visualNote.x) / 2
              (nls, qss ++ [⟨sx, sy, nextNote.x + 8.5 - dxNext, sy⟩])
          else if i > 0 then
            let prevNote := vnAt (i - 1)
            let dxPrev := (visualNote.x - prevNote.x) / 2
            (nls, qss ++ [⟨sx, sy, visualNote.x + 8.5 - dxPrev, sy⟩])
          else (nls, qss)
      else (nls, qss)
    let second := (List.range elems.length).foldl step (s.noteLines, qss0)
    { s with visualNotes := notes
           , quaverSections := second.2
           , noteLines := second.1 }

/- Closing an open group in `registerNote`: emit its geometry and clear the
   accumulator (`quaverSection = false`, total duration 0, no elements). -/
def closeQuaverGroup (s : Score) : Score :=
  let s := createQuaverSection s
  { s with gen := { s.gen with
      quaverSection := false
    , quaverTotalDuration := 0
    , quaverSectionElements := [] } }

/- The trailing conditional of the `registerNote` loop body: open a new
   beam group when none is open and the note is at most an eighth long. -/
def maybeOpenQuaverSection (s : Score) (visualNote : VisualNote) (idx : Nat)
    (tf : ℚ) : Score :=
  if ¬ s.gen.quaverSection ∧
      visualNote.duration ≤ noteDuration.getD 3 0 * tf then
    { s with gen := { s.gen with
        quaverSection := true
      , quaverTotalDuration := s.gen.quaverTotalDuration + visualNote.duration
      , quaverSectionElements := s.gen.quaverSectionElements ++ [idx] } }
  else s

/- The body of the per-visual-note loop of `registerNote`: schedule the
   note in time, place it at the horizontal write cursor, append it, and
   run the beam-group folding step.  A `continue` in the source (closing
   because the note is longer than an eighth) skips the trailing
   reopening conditional. -/
def processVN (changedClavier : Bool) (s : Score) (vn : VisualNote) : Score :=
  let s := { s with
    noteTime := s.noteTime ++ [s.gen.time]
  , gen := { s.gen with time := s.gen.time + vn.duration * 1000 } }
  let visualNote := { vn with x := s.gen.x }
  let s := { s with gen := { s.gen with
      x := s.gen.x + visualNote.duration * s.velocity } }
  let idx := s.visualNotes.length
  let s := { s with visualNotes := s.visualNotes ++ [visualNote] }
  let tf := timeFactor s.gen.currentTempo
  if s.gen.quaverSection then
    if visualNote.duration > noteDuration.getD 3 0 * tf then
      closeQuaverGroup s
    else
      let s := { s with gen := { s.gen with
          quaverTotalDuration := s.gen.quaverTotalDuration + visualNote.duration } }
      let s :=
        if changedClavier ∨ s.gen.quaverTotalDuration > 1 * tf then
          closeQuaverGroup s
        else
          { s with gen := { s.gen with
              quaverSectionElements := s.gen.quaverSectionElements ++ [idx] } }
      maybeOpenQuaverSection s visualNote idx tf
  else
    maybeOpenQuaverSection s visualNote idx tf

/- `registerNote`: build the visual notes, maintain the clef-region list
   (appending a region on the first note or on a clef change), then feed
   every visual note through the loop body. -/
def registerNote (s : Score) (note : NoteAction) : Score :=
  let cv := createVisualNotes s note
  let s := cv.1
  let vn := cv.2
  let pushed :=
    if s.claviers.length == 0 then
      ({ s with claviers := s.claviers ++ [⟨s.gen.clavier, 0⟩] }, false)
    else if (s.claviers.getLastD default).clavier ≠ s.gen.clavier then
      ({ s with claviers := s.claviers ++ [⟨s.gen.clavier, s.gen.time⟩] }, true)
    else (s, false)
  vn.foldl (processVN pushed.2) pushed.1

/- The `switch` of `setMusicActions`. -/
def applyAction (s : Score) (a : MusicAction) : Score :=
  match a with
  | MusicAction.note n => registerNote s n
  | MusicAction.tempo t => { s with gen := { s.gen with currentTempo := t } }

/- `reset`: only the clock fields are cleared. -/
def reset (s : Score) : Score :=
  { s with lastTime := 0, timeSinceStart := 0 }

/- `stop`: set the status, then `reset` (the interval timer is external). -/
def stop (s : Score) : Score :=
  reset { s with status := Status.stopped }

/- `pause`. -/
def pause (s : Score) : Score :=
  { s with status := Status.paused }

/- `start` at the given clock instant. -/
def start (s : Score) (now : ℚ) : Score :=
  if s.status ≠ Status.playing then
    { s with status := Status.playing, lastTime := now }
  else s

/- A `while (i < len && p i) ++i` loop; the fuel `len - i` encodes the
   bound check so the function reduces structurally. -/
def advanceWhileAux (p : Nat → Bool) : Nat → Nat → Nat
  | 0, i => i
  | fuel + 1, i => if p i then advanceWhileAux p fuel (i + 1) else i

def advanceWhile (len : Nat) (p : Nat → Bool) (i : Nat) : Nat :=
  advanceWhileAux p (len - i) i

/- `checkNoteVisualization`.  The auto-stop test reads `this.noteFirst`,
   a property that is never assigned anywhere in the class (the advancing
   cursor is `this.firstNote`), so it compares `undefined` with a number:
   modelled by the `Option Nat` field `noteFirst`, which is always `none`. -/
def checkNoteVisualization (s : Score) : Score :=
  let lastNote := advanceWhile s.visualNotes.length
    (fun i => decide ((s.visualNotes.getD i default).x - s.dx < s.canvasWidth))
    s.lastNote
  let s := { s with lastNote := lastNote }
  if s.firstNote < s.lastNote ∧
      (s.visualNotes.getD s.firstNote default).x - s.dx < -10 then
    let s := { s with firstNote := s.firstNote + 1 }
    if s.noteFirst == some s.visualNotes.length then stop s else s
  else s

/- `checkClavier`. -/
def checkClavier (s : Score) : Score :=
  if s.lastClavier < s.claviers.length - 1 ∧
      (s.claviers.getD (s.lastClavier + 1) default).time < s.timeSinceStart then
    { s with lastClavier := s.lastClavier + 1 }
  else s

/- `checkNoteLine`. -/
def checkNoteLine (s : Score) : Score :=
  let lastLine := advanceWhile s.noteLines.length
    (fun i => decide ((s.noteLines.getD i default).x - s.dx < s.canvasWidth))
    s.lastLine
  let s := { s with lastLine := lastLine }
  if s.firstLine < s.lastLine ∧
      (s.noteLines.getD s.firstLine default).x - s.dx < -10 then
    { s with firstLine := s.firstLine + 1 }
  else s

/- The admission loop of `checkQuaverSection`: admit up to 4 beam segments
   into the sliding window, stopping at the first off-screen segment. -/
def admitQuaverLoop : Score → Nat → Nat → Score
  | s, _, 0 => s
  | s, lastSect0, fuel + 1 =>
    if s.lastSect < s.quaverSections.length ∧ s.lastSect < lastSect0 + 4 then
      if (s.quaverSections.getD s.lastSect default).x - s.dx < s.canvasWidth then
        admitQuaverLoop
          { s with
            currentQuavSect :=
              s.currentQuavSect ++ [s.quaverSections.getD s.lastSect default]
          , lastSect := s.lastSect + 1 }
          lastSect0 fuel
      else s
    else s

/- `checkQuaverSection`: admit new segments, then retire from the front of
   the window those whose end has passed 10px left of the view (scanning at
   most 4 and stopping at the first one still visible). -/
def checkQuaverSection (s : Score) : Score :=
  let s := admitQuaverLoop s s.lastSect 4
  let toDelete := ((s.currentQuavSect.take 4).takeWhile
      (fun q => decide (q.toX - s.dx < -10))).length
  { s with currentQuavSect := s.currentQuavSect.drop toDelete }

/- `setMusicActions`: reset the generation state, process each action, and
   run the initial visibility pass (the terminal `draw` is external). -/
def setMusicActions (s : Score) (actions : List MusicAction) : Score :=
  let s := { s with gen := initialGen s.playerLinePos }
  let s := actions.foldl applyAction s
  let s := checkNoteVisualization s
  let s := checkNoteLine s
  let s := checkQuaverSection s
  s

/- `update`, driven by the elapsed milliseconds since the previous tick. -/
def update (s : Score) (deltaTime : ℚ) : Score :=
  let s := { s with lastTime := s.lastTime + deltaTime }
  let s := checkNoteVisualization s
  let s := checkClavier s
  let s := checkNoteLine s
  let s := checkQuaverSection s
  let dx := s.velocity * deltaTime / 1000
  { s with dx := s.dx + dx, timeSinceStart := s.timeSinceStart + deltaTime }

/- ------------------------------------------------------------------ -/
/- Specification-side definitions (written from the spec's words, for
   comparison with the embedded source functions). -/
/- ------------------------------------------------------------------ -/

/- The binary representation of `d` as a decreasing list of powers of two
   below 128 (the "unique binary representation" of §4.1). -/
def binaryRepr (d : Nat) : List Nat :=
  ((List.range 7).reverse).filterMap
    (fun k => if d.testBit k then some (2 ^ k) else none)

/- The vertical-position formula of spec §4.1: base table
   `[0,0,1,1,2,3,3,4,4,5,5,6]` plus the per-clef octave offset. -/
def verticalPositionSpec (pitchClass octave : Nat) (clavier : Clavier) : Int :=
  ([0, 0, 1, 1, 2, 3, 3, 4, 4, 5, 5, 6] : List Int).getD pitchClass 0 +
    (match clavier with
     | Clavier.g => -2 + ((octave : Int) - 3) * 7
     | Clavier.f => -4 + ((octave : Int) - 1) * 7)

/- Concrete playback run used for claim C4: the single whole note produced
   by `setMusicActions (initialScore 200 500) [Note(0,3,64)]`, playback
   started at clock 0, then one 1500 ms tick (scrolling 300 px) and one
   further tick.  The intermediate states are spelled out so that each
   transition can be checked by evaluation. -/

def bugNote : VisualNote := ⟨some (0, 0), -2, 250, 105/2, 2⟩

def bugState0 : Score :=
  { initialScore 200 500 with
    noteTime := [0]
  , visualNotes := [bugNote]
  , claviers := [⟨Clavier.g, 0⟩]
  , lastNote := 1
  , gen := { currentTempo := 120, time := 2000, x := 650, clavier := Clavier.g,
             quaverSection := false, quaverTotalDuration := 0,
             quaverSectionElements := [] } }

def bugState1 : Score := { bugState0 with status := Status.playing, lastTime := 0 }

def bugState2 : Score :=
  { bugState1 with lastTime := 1500, dx := 300, timeSinceStart := 1500 }

def bugState3 : Score := { bugState2 with firstNote := 1 }

/- A concrete two-note beam group used as witness input for claim C6:
   vertical positions -2 (index 0) and -1 (index 1). -/
def c6Notes : List VisualNote :=
  [⟨some (7, 0), -2, 250, 105/2, 1/4⟩, ⟨some (7, 0), -1, 300, 49, 1/4⟩]

/- Specification-side predicates used to state and prove claims C8-C10:
   well-formed data-model actions, the exact-spacing chain predicate on
   (x, duration) pairs against the horizontal write cursor, the sequencer
   invariants, and a fixed double-tempo state. -/

def WellFormedAction : MusicAction → Prop
  | MusicAction.note n => 1 ≤ n.duration
  | MusicAction.tempo t => 0 < t

def LinkedAux (vel px pd : ℚ) : List (ℚ × ℚ) → ℚ → Prop
  | [], g => g = px + pd * vel
  | (x, d) :: rest, g => x = px + pd * vel ∧ LinkedAux vel x d rest g

def Linked (vel : ℚ) : List (ℚ × ℚ) → ℚ → Prop
  | [], _ => True
  | (x, d) :: rest, g => LinkedAux vel x d rest g

def GoodState (vel : ℚ) (s : Score) : Prop :=
  s.velocity = vel ∧ 0 < s.gen.currentTempo ∧
  Linked vel (s.visualNotes.map (fun v => (v.x, v.duration))) s.gen.x ∧
  (∀ q ∈ s.visualNotes.map (fun v => (v.x, v.duration)), 0 < q.2)

def ClavGood (s : Score) : Prop :=
  0 < s.gen.currentTempo ∧
  List.Chain' (fun a b => a.time < b.time) s.claviers ∧
  List.Chain' (fun a b => a.clavier ≠ b.clavier) s.claviers ∧
  (∀ c0 ∈ s.claviers.getLast?, c0.time < s.gen.time) ∧
  (s.claviers = [] → s.gen.time = 0)

def doubleTempoScore : Score :=
  { initialScore 200 500 with
    gen := { initialGen 250 with currentTempo := 240 } }

/- ------------------------------------------------------------------ -/
/- Theorems -/
/- ------------------------------------------------------------------ -/

/-- Claim C1, counterexample.  The claim quantifies over every positive
integer duration, but the decomposition loop of `createVisualNotes` takes
each duration class at most once, so for `D = 128` the produced classes sum
to 127, not 128 (indeed no list of distinct values from {64,...,1} can sum
to 128): the claim as stated is false. -/
theorem c1_counterexample :
    decompose 128 = [64, 32, 16, 8, 4, 2, 1] ∧ (decompose 128).sum ≠ 128 := by
  decide

/-- Claim C1 (amended to durations 1..127): for every duration `D` with
`1 ≤ D ≤ 127`, the decomposition performed when creating visual notes
yields duration classes drawn only from {64,32,16,8,4,2,1}, strictly
decreasing, summing exactly to `D`, and equal to the unique binary
representation of `D`. -/
theorem c1_decompose_binary :
    ∀ d : Nat, d < 128 → 1 ≤ d →
      (decompose d).sum = d ∧ List.Pairwise (· > ·) (decompose d) ∧
      (∀ v ∈ decompose d, v ∈ noteFraqDuration) ∧
      decompose d = binaryRepr d := by
  decide

/-- Witness for C1 at the spec's own example `decompose 24 = [16, 8]`. -/
theorem c1_decompose_binary_witness :
    (24 : Nat) < 128 ∧ 1 ≤ 24 ∧
      ((decompose 24).sum = 24 ∧ List.Pairwise (· > ·) (decompose 24) ∧
       (∀ v ∈ decompose 24, v ∈ noteFraqDuration) ∧
       decompose 24 = binaryRepr 24) :=
  ⟨by decide, by decide, c1_decompose_binary 24 (by decide) (by decide)⟩

/-- Claim C7, counterexample.  The claim asserts
`verticalPosition(0,1,Bass) = -8`, but by its own formula the value is
`baseTable[0] + (-4 + (1-1)*7) = -4`, and the code agrees: the claim as
stated is false. -/
theorem c7_counterexample :
    getNoteVerticalPos ⟨0, 1, 1⟩ Clavier.f = -4 ∧ (-4 : Int) ≠ -8 := by
  decide

/-- Claim C7 (amended: `verticalPosition(0,1,Bass) = -4`, not `-8`): for
every pitch class in 0..11 and octave in 0..6, under either clef the
vertical staff position equals the spec formula
`baseTable[pitchClass] + (-2 + (octave-3)*7)` (treble) respectively
`baseTable[pitchClass] + (-4 + (octave-1)*7)` (bass) with
`baseTable = [0,0,1,1,2,3,3,4,4,5,5,6]`; in particular
`verticalPosition(0,3,Treble) = -2` and `verticalPosition(0,1,Bass) = -4`.
Determinism is immediate since the embedded function is pure. -/
theorem c7_vertical_position :
    ∀ pc oct : Nat, pc < 12 → oct < 7 → ∀ dur : Nat, ∀ c : Clavier,
      getNoteVerticalPos ⟨pc, oct, dur⟩ c = verticalPositionSpec pc oct c ∧
      getNoteVerticalPos ⟨0, 3, dur⟩ Clavier.g = -2 ∧
      getNoteVerticalPos ⟨0, 1, dur⟩ Clavier.f = -4 := by
  intro pc oct _ _ dur c
  refine ⟨?_, rfl, rfl⟩
  cases c <;> rfl

/-- Witness for C7 at pitch class 0, octave 3, treble clef. -/
theorem c7_vertical_position_witness :
    (0 : Nat) < 12 ∧ (3 : Nat) < 7 ∧
      (getNoteVerticalPos ⟨0, 3, 16⟩ Clavier.g = verticalPositionSpec 0 3 Clavier.g ∧
       getNoteVerticalPos ⟨0, 3, 16⟩ Clavier.g = -2 ∧
       getNoteVerticalPos ⟨0, 1, 16⟩ Clavier.f = -4) :=
  ⟨by decide, by decide, c7_vertical_position 0 3 (by decide) (by decide) 16 Clavier.g⟩

/-- Claim C2, counterexample.  Submitting exactly two consecutive
eighth-note actions in the same clef leaves the beam-group accumulator
open: `setMusicActions` never flushes a trailing open group, so no beam
geometry at all is emitted (zero beam segments and zero stems), not one
`BeamGroup` of size 2 as claimed. -/
theorem c2_counterexample :
    ((setMusicActions (initialScore 200 500)
        [MusicAction.note ⟨0, 3, 8⟩, MusicAction.note ⟨2, 3, 8⟩]).quaverSections.length = 0) ∧
    ((setMusicActions (initialScore 200 500)
        [MusicAction.note ⟨0, 3, 8⟩, MusicAction.note ⟨2, 3, 8⟩]).noteLines.length = 0) := by
  norm_num [setMusicActions, applyAction, registerNote, createVisualNotes, processVN,
    maybeOpenQuaverSection, closeQuaverGroup, createQuaverSection, cqsScan, cqsStep,
    sectionDirectionOf, timeFactor, initialScore, initialGen, symbolIds, symbolStep,
    noteFraqDuration, noteDuration, noteSymbols, noteVerticalPos, chooseSymbol, clavierFor,
    getNoteVerticalPos, VisualNote.make, VisualNote.changeSymbol, scoreDims,
    checkNoteVisualization, checkNoteLine, checkQuaverSection, admitQuaverLoop,
    advanceWhile, advanceWhileAux, List.enum, List.enumFrom, stop, reset,
    List.range_succ, List.range_zero]

set_option maxHeartbeats 4000000 in
/-- Claim C2 (amended): two consecutive eighth-note-duration notes in the
same clef, once the group is closed by a following longer note, produce
exactly one beam group of size 2: one primary beam segment
(`quaverSections.length = 1`, so no secondary segments), one stem per
member (`noteLines.length = 2`), and exactly the two eighth notes rewritten
to the beamed-base glyph `(7,0)`.  Two eighth notes alone emit no beam
geometry (see the counterexample): a closing trigger is required. -/
theorem c2_beam_pair_closed :
    ((setMusicActions (initialScore 200 500)
        [MusicAction.note ⟨0, 3, 8⟩, MusicAction.note ⟨2, 3, 8⟩,
         MusicAction.note ⟨4, 3, 16⟩]).quaverSections.length = 1) ∧
    ((setMusicActions (initialScore 200 500)
        [MusicAction.note ⟨0, 3, 8⟩, MusicAction.note ⟨2, 3, 8⟩,
         MusicAction.note ⟨4, 3, 16⟩]).noteLines.length = 2) ∧
    ((setMusicActions (initialScore 200 500)
        [MusicAction.note ⟨0, 3, 8⟩, MusicAction.note ⟨2, 3, 8⟩,
         MusicAction.note ⟨4, 3, 16⟩]).visualNotes.map VisualNote.img =
      [some (7, 0), some (7, 0), some (2, 0)]) := by
  norm_num [setMusicActions, applyAction, registerNote, createVisualNotes, processVN,
    maybeOpenQuaverSection, closeQuaverGroup, createQuaverSection, cqsScan, cqsStep,
    sectionDirectionOf, timeFactor, initialScore, initialGen, symbolIds, symbolStep,
    noteFraqDuration, noteDuration, noteSymbols, noteVerticalPos, chooseSymbol, clavierFor,
    getNoteVerticalPos, VisualNote.make, VisualNote.changeSymbol, scoreDims,
    checkNoteVisualization, checkNoteLine, checkQuaverSection, admitQuaverLoop,
    advanceWhile, advanceWhileAux, List.enum, List.enumFrom, stop, reset,
    List.range_succ, List.range_zero]

/-- Claim C3, counterexample.  After submitting two notes the visibility
cursor `lastNote` is 2 (the initial visibility pass admitted both notes);
calling `stop()` there leaves it at 2, not at its initial position 0 as
the claim requires (`reset` clears only the clock fields). -/
theorem c3_counterexample :
    ((stop (setMusicActions (initialScore 200 500)
        [MusicAction.note ⟨0, 3, 8⟩, MusicAction.note ⟨2, 3, 8⟩])).timeSinceStart = 0) ∧
    ((stop (setMusicActions (initialScore 200 500)
        [MusicAction.note ⟨0, 3, 8⟩, MusicAction.note ⟨2, 3, 8⟩])).lastNote = 2) ∧
    (2 : Nat) ≠ 0 := by
  refine ⟨rfl, ?_, by decide⟩
  norm_num [setMusicActions, applyAction, registerNote, createVisualNotes, processVN,
    maybeOpenQuaverSection, closeQuaverGroup, createQuaverSection, cqsScan, cqsStep,
    sectionDirectionOf, timeFactor, initialScore, initialGen, symbolIds, symbolStep,
    noteFraqDuration, noteDuration, noteSymbols, noteVerticalPos, chooseSymbol, clavierFor,
    getNoteVerticalPos, VisualNote.make, VisualNote.changeSymbol, scoreDims,
    checkNoteVisualization, checkNoteLine, checkQuaverSection, admitQuaverLoop,
    advanceWhile, advanceWhileAux, List.enum, List.enumFrom, stop, reset,
    List.range_succ, List.range_zero]

/-- Claim C3 (amended): `stop()` from any prior state results in elapsed
time (`timeSinceStart`) 0, `lastTime` 0 and status Stopped, but leaves all
four visibility cursor pairs — (firstNote,lastNote), (firstLine,lastLine),
the beam-segment window (lastSect, currentQuavSect) and the clef-region
index — and the already-built note/beam geometry (and scroll offset `dx`)
unchanged; it does not rewind them to (0,0). -/
theorem c3_stop_resets_time_only :
    ∀ s : Score,
      (stop s).timeSinceStart = 0 ∧ (stop s).lastTime = 0 ∧
      (stop s).status = Status.stopped ∧
      (stop s).firstNote = s.firstNote ∧ (stop s).lastNote = s.lastNote ∧
      (stop s).firstLine = s.firstLine ∧ (stop s).lastLine = s.lastLine ∧
      (stop s).lastSect = s.lastSect ∧
      (stop s).currentQuavSect = s.currentQuavSect ∧
      (stop s).lastClavier = s.lastClavier ∧
      (stop s).visualNotes = s.visualNotes ∧
      (stop s).noteLines = s.noteLines ∧
      (stop s).quaverSections = s.quaverSections ∧
      (stop s).claviers = s.claviers ∧
      (stop s).noteTime = s.noteTime ∧
      (stop s).dx = s.dx :=
  fun _ => ⟨rfl, rfl, rfl, rfl, rfl, rfl, rfl, rfl, rfl, rfl, rfl, rfl, rfl,
    rfl, rfl, rfl⟩

/-- Claim C4, bug evaluation.  One whole note is submitted, playback is
started, and after a 1500 ms tick the scroll offset (300 px) has carried
the note fully past the left edge; on the next tick
`firstNote = lastNote = 1 = ` total note count, yet the status is still
Playing.  The auto-stop test in `checkNoteVisualization` reads
`this.noteFirst` â a never-assigned property (the cursor's real name is
`firstNote`) â so its comparison with the note count is always false and
`stop()` is never invoked, contrary to the claim (and to the evident
intent of the code). -/
theorem c4_no_auto_stop_eval :
    setMusicActions (initialScore 200 500) [MusicAction.note ⟨0, 3, 64⟩] = bugState0 ∧
    start bugState0 0 = bugState1 ∧
    update bugState1 1500 = bugState2 ∧
    update bugState2 0 = bugState3 ∧
    bugState3.firstNote = 1 ∧ bugState3.lastNote = 1 ∧
    bugState3.visualNotes.length = 1 ∧ bugState3.status = Status.playing := by
  refine ⟨?_, ?_, ?_, ?_, rfl, rfl, rfl, rfl⟩
  · norm_num [setMusicActions, applyAction, registerNote, createVisualNotes, processVN,
      maybeOpenQuaverSection, closeQuaverGroup, createQuaverSection, cqsScan, cqsStep,
      sectionDirectionOf, timeFactor, initialScore, initialGen, symbolIds, symbolStep,
      noteFraqDuration, noteDuration, noteSymbols, noteVerticalPos, chooseSymbol, clavierFor,
      getNoteVerticalPos, VisualNote.make, VisualNote.changeSymbol, scoreDims,
      checkNoteVisualization, checkNoteLine, checkQuaverSection, admitQuaverLoop,
      advanceWhile, advanceWhileAux, List.enum, List.enumFrom, stop, reset,
      bugState0, bugNote]
  · norm_num [start, bugState0, bugState1, bugNote, initialScore, initialGen]
  · norm_num [update, checkNoteVisualization, checkClavier, checkNoteLine,
      checkQuaverSection, admitQuaverLoop, advanceWhile, advanceWhileAux, stop, reset,
      bugState0, bugState1, bugState2, bugNote, initialScore, initialGen]
  · norm_num [update, checkNoteVisualization, checkClavier, checkNoteLine,
      checkQuaverSection, admitQuaverLoop, advanceWhile, advanceWhileAux, stop, reset,
      bugState0, bugState1, bugState2, bugState3, bugNote, initialScore, initialGen]

/-- Claim C5, counterexample.  At `Note(11,3,_)` (treble clef) the
vertical position is exactly 4: the code selects the variant-1 glyph
(the boundary in `createVisualNotes` is `verticalPos > 3`), although the
claim's criterion `verticalPos > 4` does not hold there and would select
variant 0 — which is a different glyph.  The claim as stated is false. -/
theorem c5_counterexample :
    ((createVisualNotes (initialScore 200 500) ⟨11, 3, 8⟩).2.map VisualNote.img
      = [some (3, 1)]) ∧
    getNoteVerticalPos ⟨11, 3, 8⟩ Clavier.g = 4 ∧
    ¬ ((4 : Int) > 4) ∧
    some (3, 1) ≠ ((noteSymbols.getD 3 []).getD 0 default).img := by
  refine ⟨by decide, by decide, by decide, by decide⟩

/-- Claim C5 (amended): the upward- versus downward-oriented glyph variant
of each produced visual note is selected according to whether the note's
vertical position is greater than 3 (not 4): every visual note built by
`createVisualNotes` carries the image of
`noteSymbols[id][verticalPos > 3 ? 1 : 0]` for its duration class `id`. -/
theorem c5_variant_boundary :
    ∀ s : Score, ∀ n : NoteAction,
      ((createVisualNotes s n).2.map VisualNote.img =
        (symbolIds n.duration).map
          (fun id => (chooseSymbol id (getNoteVerticalPos n (clavierFor n))).img)) ∧
      (∀ id : Nat, ∀ vp : Int,
        chooseSymbol id vp =
          if vp > 3 then (noteSymbols.getD id []).getD 1 default
          else (noteSymbols.getD id []).getD 0 default) := by
  intro s n
  constructor
  · simp [createVisualNotes, VisualNote.make]
  · intro _ _
    rfl

/- Helper lemmas for claim C6: the interleaved extreme-position scan of
   `createQuaverSection` computes the true maximum and minimum vertical
   positions of the group (the glyph rewriting it performs in the same
   loop preserves vertical positions). -/

theorem vp_set_changeSymbol (notes : List VisualNote) (idx j : Nat) (sym : NoteSymbol) :
    ((notes.set idx ((notes.getD idx default).changeSymbol sym scoreDims)).getD j
        default).verticalPos
      = (notes.getD j default).verticalPos := by
  simp only [List.getD_eq_getElem?_getD, List.getElem?_set]
  split_ifs with h1 h2
  · subst h1
    rw [List.getElem?_eq_getElem h2]
    rfl
  · subst h1
    rw [List.getElem?_eq_none (by omega)]
  · rfl

theorem cqsStep_eq (notes : List VisualNote) (majP minP : Int) (a b i idx : Nat) :
    cqsStep (notes, majP, minP, a, b, i) idx =
      (notes.set idx ((notes.getD idx default).changeSymbol
          ((noteSymbols.getD 7 []).getD 0 default) scoreDims),
       if (notes.getD idx default).verticalPos > majP
         then (notes.getD idx default).verticalPos else majP,
       if (notes.getD idx default).verticalPos < minP
         then (notes.getD idx default).verticalPos else minP,
       if (notes.getD idx default).verticalPos > majP then i else a,
       if (notes.getD idx default).verticalPos < minP then i else b,
       i + 1) := by
  by_cases h1 : (notes.getD idx default).verticalPos > majP <;>
    by_cases h2 : (notes.getD idx default).verticalPos < minP <;>
      simp [cqsStep, h1, h2, -List.getD_eq_getElem?_getD]

theorem cqsScan_go (elems : List Nat) :
    ∀ (notes : List VisualNote) (majP minP : Int) (a b i : Nat),
      ((elems.foldl cqsStep (notes, majP, minP, a, b, i)).2.1 =
          (elems.map (fun idx => (notes.getD idx default).verticalPos)).foldl
            (fun m v => if v > m then v else m) majP) ∧
      ((elems.foldl cqsStep (notes, majP, minP, a, b, i)).2.2.1 =
          (elems.map (fun idx => (notes.getD idx default).verticalPos)).foldl
            (fun m v => if v < m then v else m) minP) := by
  induction elems with
  | nil => intro _ _ _ _ _ _; exact ⟨rfl, rfl⟩
  | cons idx rest ih =>
      intro notes majP minP a b i
      rw [List.foldl_cons, cqsStep_eq, List.map_cons, List.foldl_cons,
        List.foldl_cons]
      have hmap :
          rest.map (fun j =>
            ((notes.set idx ((notes.getD idx default).changeSymbol
                ((noteSymbols.getD 7 []).getD 0 default) scoreDims)).getD j
              default).verticalPos)
          = rest.map (fun j => (notes.getD j default).verticalPos) :=
        List.map_congr_left (fun j _ => vp_set_changeSymbol notes idx j _)
      obtain ⟨h1, h2⟩ := ih (notes.set idx ((notes.getD idx default).changeSymbol
          ((noteSymbols.getD 7 []).getD 0 default) scoreDims))
        (if (notes.getD idx default).verticalPos > majP
          then (notes.getD idx default).verticalPos else majP)
        (if (notes.getD idx default).verticalPos < minP
          then (notes.getD idx default).verticalPos else minP)
        (if (notes.getD idx default).verticalPos > majP then i else a)
        (if (notes.getD idx default).verticalPos < minP then i else b)
        (i + 1)
      rw [hmap] at h1 h2
      exact ⟨h1, h2⟩

theorem stepMax_eq_max : (fun (m v : Int) => if v > m then v else m) = max := by
  funext m v
  rcases lt_or_le m v with h | h
  · rw [if_pos h, max_eq_right h.le]
  · rw [if_neg (not_lt.mpr h), max_eq_left h]

theorem stepMin_eq_min : (fun (m v : Int) => if v < m then v else m) = min := by
  funext m v
  rcases lt_or_le v m with h | h
  · rw [if_pos h, min_eq_right h.le]
  · rw [if_neg (not_lt.mpr h), min_eq_left h]

theorem foldl_max_eq (l : List Int) :
    ∀ init M : Int, (M ∈ l ∨ init = M) → (∀ v ∈ l, v ≤ M) → init ≤ M →
      l.foldl max init = M := by
  induction l with
  | nil =>
      intro init M hmem _ _
      rcases hmem with h | h
      · simp at h
      · exact h
  | cons v t ih =>
      intro init M hmem hub hle
      rw [List.foldl_cons]
      have hvM : v ≤ M := hub v (List.mem_cons_self v t)
      have hinit' : max init v ≤ M := max_le hle hvM
      have hrest : ∀ w ∈ t, w ≤ M := fun w hw => hub w (List.mem_cons_of_mem _ hw)
      rcases hmem with h | h
      · rcases List.mem_cons.mp h with hv | ht
        · have heq : max init v = M := by rw [← hv]; exact max_eq_right hle
          exact ih _ M (Or.inr heq) hrest hinit'
        · exact ih _ M (Or.inl ht) hrest hinit'
      · have heq : max init v = M := by rw [← h]; rw [← h] at hvM; exact max_eq_left hvM
        exact ih _ M (Or.inr heq) hrest hinit'

theorem foldl_min_eq (l : List Int) :
    ∀ init M : Int, (M ∈ l ∨ init = M) → (∀ v ∈ l, M ≤ v) → M ≤ init →
      l.foldl min init = M := by
  induction l with
  | nil =>
      intro init M hmem _ _
      rcases hmem with h | h
      · simp at h
      · exact h
  | cons v t ih =>
      intro init M hmem hlb hle
      rw [List.foldl_cons]
      have hvM : M ≤ v := hlb v (List.mem_cons_self v t)
      have hinit' : M ≤ min init v := le_min hle hvM
      have hrest : ∀ w ∈ t, M ≤ w := fun w hw => hlb w (List.mem_cons_of_mem _ hw)
      rcases hmem with h | h
      · rcases List.mem_cons.mp h with hv | ht
        · have heq : min init v = M := by rw [← hv]; exact min_eq_right hle
          exact ih _ M (Or.inr heq) hrest hinit'
        · exact ih _ M (Or.inl ht) hrest hinit'
      · have heq : min init v = M := by rw [← h]; rw [← h] at hvM; exact min_eq_left hvM
        exact ih _ M (Or.inr heq) hrest hinit'

/-- Claim C6 (confirmed): when a beam group of at least 2 notes is closed,
its direction is Down if and only if the numerically highest vertical
position `majorPos` satisfies `majorPos > 3` and `majorDist >= minorDist`,
where `majorDist = majorPos>3 ? majorPos-4 : 4-majorPos` and `minorDist`
symmetrically from the lowest position `minorPos`, and Up otherwise.  The
group is given by the member indices `elems` into `visualNotes`; the range
hypothesis (all positions strictly between -100 and 100) reflects the
source's extreme-scan seeds -100/100 and holds for every note expressible
in the data model (positions lie in [-23, 37]). -/
theorem c6_beam_direction
    (notes : List VisualNote) (elems : List Nat) (majorPos minorPos : Int)
    (hlen : 2 ≤ elems.length)
    (hmajMem : majorPos ∈ elems.map (fun i => (notes.getD i default).verticalPos))
    (hmajUb : ∀ v ∈ elems.map (fun i => (notes.getD i default).verticalPos), v ≤ majorPos)
    (hminMem : minorPos ∈ elems.map (fun i => (notes.getD i default).verticalPos))
    (hminLb : ∀ v ∈ elems.map (fun i => (notes.getD i default).verticalPos), minorPos ≤ v)
    (hrange : ∀ v ∈ elems.map (fun i => (notes.getD i default).verticalPos),
        -100 < v ∧ v < 100) :
    (sectionDirectionOf (cqsScan notes elems).2.1 (cqsScan notes elems).2.2.1
        = SectionDir.down) ↔
      (majorPos > 3 ∧
        (if majorPos > 3 then majorPos - 4 else 4 - majorPos) ≥
          (if minorPos > 3 then minorPos - 4 else 4 - minorPos)) := by
  have _hlen := hlen
  have hmaj : (cqsScan notes elems).2.1 = majorPos := by
    rw [cqsScan, (cqsScan_go elems notes (-100) 100 0 0 0).1, stepMax_eq_max]
    exact foldl_max_eq _ _ _ (Or.inl hmajMem) hmajUb
      (le_of_lt (hrange majorPos hmajMem).1)
  have hmin : (cqsScan notes elems).2.2.1 = minorPos := by
    rw [cqsScan, (cqsScan_go elems notes (-100) 100 0 0 0).2, stepMin_eq_min]
    exact foldl_min_eq _ _ _ (Or.inl hminMem) hminLb
      (le_of_lt (hrange minorPos hminMem).2)
  rw [hmaj, hmin]
  simp only [sectionDirectionOf]
  by_cases hc : majorPos > 3 ∧
      (if majorPos > 3 then majorPos - 4 else 4 - majorPos) ≥
        (if minorPos > 3 then minorPos - 4 else 4 - minorPos)
  · rw [if_pos hc]
    exact iff_of_true rfl hc
  · rw [if_neg hc]
    exact iff_of_false (fun hEq => SectionDir.noConfusion hEq) hc

/-- Witness for C6 on the concrete two-note group `c6Notes` (positions -2
and -1): the highest position -1 is not above the boundary, so the
direction is Up, matching the claim's criterion. -/
theorem c6_beam_direction_witness :
    (sectionDirectionOf (cqsScan c6Notes [0, 1]).2.1 (cqsScan c6Notes [0, 1]).2.2.1
        = SectionDir.down) ↔
      ((-1 : Int) > 3 ∧
        (if (-1 : Int) > 3 then (-1 : Int) - 4 else 4 - (-1 : Int)) ≥
          (if (-2 : Int) > 3 then (-2 : Int) - 4 else 4 - (-2 : Int))) :=
  c6_beam_direction c6Notes [0, 1] (-1) (-2) (by decide) (by decide) (by decide)
    (by decide) (by decide) (by decide)

/- Helper lemmas for claims C8 and C9. -/

theorem foldl_preserve {β σ : Type _} (f : σ → β → σ) (P : σ → Prop) (Q : β → Prop) :
    ∀ (l : List β) (s : σ), P s → (∀ x ∈ l, Q x) →
      (∀ t x, P t → Q x → P (f t x)) → P (l.foldl f s) := by
  intro l
  induction l with
  | nil => intro s hs _ _; exact hs
  | cons x rest ih =>
      intro s hs hq hstep
      exact ih (f s x) (hstep s x hs (hq x (List.mem_cons_self x rest)))
        (fun y hy => hq y (List.mem_cons_of_mem _ hy)) hstep

theorem symbolStep_mem (P : Nat → Prop) :
    ∀ (l : List (Nat × Nat)) (acc : Nat × List Nat × Bool),
      (∀ i ∈ acc.2.1, P i) → (∀ p ∈ l, P p.1) →
      ∀ i ∈ (l.foldl symbolStep acc).2.1, P i := by
  intro l
  induction l with
  | nil => intro acc ha _ i hi; exact ha i hi
  | cons p rest ih =>
      intro acc ha hl
      rw [List.foldl_cons]
      refine ih (symbolStep acc p) ?_ (fun q hq => hl q (List.mem_cons_of_mem _ hq))
      intro i hi
      unfold symbolStep at hi
      split_ifs at hi
      · exact ha i hi
      · rcases List.mem_append.mp hi with h | h
        · exact ha i h
        · rw [List.mem_singleton.mp h]
          exact hl p (List.mem_cons_self p rest)
      · exact ha i hi

theorem symbolIds_lt7 (d : Nat) : ∀ i ∈ symbolIds d, i < 7 := by
  refine symbolStep_mem (· < 7) noteFraqDuration.enum (d, [], false) ?_ ?_
  · intro i hi
    simp at hi
  · decide

theorem symbolStep_ids_mono :
    ∀ (l : List (Nat × Nat)) (acc : Nat × List Nat × Bool),
      acc.2.1.length ≤ ((l.foldl symbolStep acc).2.1).length := by
  intro l
  induction l with
  | nil => intro acc; exact le_refl _
  | cons p rest ih =>
      intro acc
      rw [List.foldl_cons]
      refine le_trans ?_ (ih (symbolStep acc p))
      unfold symbolStep
      split_ifs
      · exact le_refl _
      · simp
      · exact le_refl _

theorem symbolStep_nil :
    ∀ (l : List (Nat × Nat)) (r : Nat) (br : Bool),
      (l.foldl symbolStep (r, [], br)).2.1 = [] →
      br = true ∨ ∀ p ∈ l, ¬ p.2 ≤ r := by
  intro l
  induction l with
  | nil => intro r br _; right; intro p hp; simp at hp
  | cons p rest ih =>
      intro r br h
      cases br with
      | true => left; rfl
      | false =>
          by_cases hp : p.2 ≤ r
          · exfalso
            rw [List.foldl_cons,
              (show symbolStep (r, [], false) p
                  = (r - p.2, [p.1], r - p.2 == 0) by simp [symbolStep, hp])] at h
            have hm := symbolStep_ids_mono rest (r - p.2, [p.1], r - p.2 == 0)
            rw [h] at hm
            simp at hm
          · rw [List.foldl_cons,
              (show symbolStep (r, [], false) p = (r, [], false) by
                simp [symbolStep, hp])] at h
            rcases ih r false h with h' | h'
            · exact absurd h' (by simp)
            · right
              intro q hq
              rcases List.mem_cons.mp hq with rfl | hq'
              · exact hp
              · exact h' q hq'

theorem symbolIds_ne_nil (d : Nat) (hd : 1 ≤ d) : symbolIds d ≠ [] := by
  intro h
  rcases symbolStep_nil noteFraqDuration.enum d false h with h' | h'
  · exact absurd h' (by simp)
  · have h6 := h' (6, 1) (by decide)
    omega

theorem chooseSymbol_duration (id : Nat) (h : id < 7) (vp : Int) :
    (chooseSymbol id vp).duration = noteDuration.getD id 0 := by
  interval_cases id <;> (unfold chooseSymbol; split_ifs <;> rfl)

theorem noteDuration_pos (id : Nat) (h : id < 7) :
    0 < noteDuration.getD id 0 := by
  interval_cases id <;> norm_num [noteDuration]

theorem createVisualNotes_snd (s : Score) (n : NoteAction) :
    (createVisualNotes s n).2 =
      (symbolIds n.duration).map (fun id =>
        VisualNote.make (chooseSymbol id (getNoteVerticalPos n (clavierFor n)))
          s.gen.currentTempo (getNoteVerticalPos n (clavierFor n)) scoreDims) := rfl

theorem createVisualNotes_pos (s : Score) (n : NoteAction)
    (ht : 0 < s.gen.currentTempo) :
    ∀ vn ∈ (createVisualNotes s n).2, 0 < vn.duration := by
  intro vn hvn
  rw [createVisualNotes_snd] at hvn
  rcases List.mem_map.mp hvn with ⟨id, hid, rfl⟩
  show 0 < (chooseSymbol id (getNoteVerticalPos n (clavierFor n))).duration
      * (120 / s.gen.currentTempo)
  rw [chooseSymbol_duration id (symbolIds_lt7 n.duration id hid)]
  exact mul_pos (noteDuration_pos id (symbolIds_lt7 n.duration id hid))
    (div_pos (by norm_num) ht)

theorem createVisualNotes_ne_nil (s : Score) (n : NoteAction)
    (hd : 1 ≤ n.duration) : (createVisualNotes s n).2 ≠ [] := by
  rw [createVisualNotes_snd]
  intro h
  exact symbolIds_ne_nil n.duration hd (List.map_eq_nil_iff.mp h)

theorem createVisualNotes_fst (s : Score) (n : NoteAction) :
    (createVisualNotes s n).1 =
      { s with gen := { s.gen with clavier := clavierFor n } } := rfl

theorem map_set_changeSymbol {α : Type _} (f : VisualNote → α)
    (hf : ∀ v sym, f (VisualNote.changeSymbol v sym scoreDims) = f v)
    (notes : List VisualNote) (idx : Nat) (sym : NoteSymbol) :
    (notes.set idx ((notes.getD idx default).changeSymbol sym scoreDims)).map f
      = notes.map f := by
  apply List.ext_getElem?
  intro j
  simp only [List.getElem?_map, List.getElem?_set]
  split_ifs with h1 h2
  · subst h1
    rw [List.getElem?_eq_getElem h2]
    simp only [Option.map_some', Option.some.injEq]
    rw [hf]
    congr 1
    rw [List.getD_eq_getElem?_getD, List.getElem?_eq_getElem h2]
    rfl
  · subst h1
    rw [List.getElem?_eq_none (by omega)]
  · rfl

theorem cqsScan_map_proj {α : Type _} (f : VisualNote → α)
    (hf : ∀ v sym, f (VisualNote.changeSymbol v sym scoreDims) = f v) :
    ∀ (elems : List Nat) (notes : List VisualNote) (majP minP : Int) (a b i : Nat),
      ((elems.foldl cqsStep (notes, majP, minP, a, b, i)).1).map f = notes.map f := by
  intro elems
  induction elems with
  | nil => intro notes _ _ _ _ _; rfl
  | cons idx rest ih =>
      intro notes majP minP a b i
      rw [List.foldl_cons, cqsStep_eq]
      rw [ih]
      exact map_set_changeSymbol f hf notes idx _

theorem cqs_gen (s : Score) : (createQuaverSection s).gen = s.gen := by
  unfold createQuaverSection; split <;> rfl

theorem cqs_claviers (s : Score) :
    (createQuaverSection s).claviers = s.claviers := by
  unfold createQuaverSection; split <;> rfl

theorem cqs_velocity (s : Score) :
    (createQuaverSection s).velocity = s.velocity := by
  unfold createQuaverSection; split <;> rfl

theorem cqs_xdmap (s : Score) :
    (createQuaverSection s).visualNotes.map (fun v => (v.x, v.duration)) =
      s.visualNotes.map (fun v => (v.x, v.duration)) := by
  unfold createQuaverSection
  split
  · rfl
  · exact cqsScan_map_proj (fun v => (v.x, v.duration)) (fun v sym => rfl) _ _ _ _ _ _ _

theorem cqg_tempo (s : Score) :
    (closeQuaverGroup s).gen.currentTempo = s.gen.currentTempo := by
  simp [closeQuaverGroup, cqs_gen]

theorem cqg_time (s : Score) :
    (closeQuaverGroup s).gen.time = s.gen.time := by
  simp [closeQuaverGroup, cqs_gen]

theorem cqg_x (s : Score) : (closeQuaverGroup s).gen.x = s.gen.x := by
  simp [closeQuaverGroup, cqs_gen]

theorem cqg_clavier (s : Score) :
    (closeQuaverGroup s).gen.clavier = s.gen.clavier := by
  simp [closeQuaverGroup, cqs_gen]

theorem cqg_claviers (s : Score) :
    (closeQuaverGroup s).claviers = s.claviers := by
  simp [closeQuaverGroup, cqs_claviers]

theorem cqg_velocity (s : Score) :
    (closeQuaverGroup s).velocity = s.velocity := by
  simp [closeQuaverGroup, cqs_velocity]

theorem cqg_xdmap (s : Score) :
    (closeQuaverGroup s).visualNotes.map (fun v => (v.x, v.duration)) =
      s.visualNotes.map (fun v => (v.x, v.duration)) := by
  simp only [closeQuaverGroup]
  exact cqs_xdmap s

theorem mo_tempo (s : Score) (vn : VisualNote) (idx : Nat) (tf : ℚ) :
    (maybeOpenQuaverSection s vn idx tf).gen.currentTempo = s.gen.currentTempo := by
  unfold maybeOpenQuaverSection; split <;> rfl

theorem mo_time (s : Score) (vn : VisualNote) (idx : Nat) (tf : ℚ) :
    (maybeOpenQuaverSection s vn idx tf).gen.time = s.gen.time := by
  unfold maybeOpenQuaverSection; split <;> rfl

theorem mo_x (s : Score) (vn : VisualNote) (idx : Nat) (tf : ℚ) :
    (maybeOpenQuaverSection s vn idx tf).gen.x = s.gen.x := by
  unfold maybeOpenQuaverSection; split <;> rfl

theorem mo_clavier (s : Score) (vn : VisualNote) (idx : Nat) (tf : ℚ) :
    (maybeOpenQuaverSection s vn idx tf).gen.clavier = s.gen.clavier := by
  unfold maybeOpenQuaverSection; split <;> rfl

theorem mo_claviers (s : Score) (vn : VisualNote) (idx : Nat) (tf : ℚ) :
    (maybeOpenQuaverSection s vn idx tf).claviers = s.claviers := by
  unfold maybeOpenQuaverSection; split <;> rfl

theorem mo_velocity (s : Score) (vn : VisualNote) (idx : Nat) (tf : ℚ) :
    (maybeOpenQuaverSection s vn idx tf).velocity = s.velocity := by
  unfold maybeOpenQuaverSection; split <;> rfl

theorem mo_visualNotes (s : Score) (vn : VisualNote) (idx : Nat) (tf : ℚ) :
    (maybeOpenQuaverSection s vn idx tf).visualNotes = s.visualNotes := by
  unfold maybeOpenQuaverSection; split <;> rfl

theorem processVN_tempo (c : Bool) (s : Score) (vn : VisualNote) :
    (processVN c s vn).gen.currentTempo = s.gen.currentTempo := by
  simp only [processVN]
  split_ifs <;> simp [cqg_tempo, mo_tempo]

theorem processVN_time (c : Bool) (s : Score) (vn : VisualNote) :
    (processVN c s vn).gen.time = s.gen.time + vn.duration * 1000 := by
  simp only [processVN]
  split_ifs <;> simp [cqg_time, mo_time]

theorem processVN_x (c : Bool) (s : Score) (vn : VisualNote) :
    (processVN c s vn).gen.x = s.gen.x + vn.duration * s.velocity := by
  simp only [processVN]
  split_ifs <;> simp [cqg_x, mo_x]

theorem processVN_clavier (c : Bool) (s : Score) (vn : VisualNote) :
    (processVN c s vn).gen.clavier = s.gen.clavier := by
  simp only [processVN]
  split_ifs <;> simp [cqg_clavier, mo_clavier]

theorem processVN_claviers (c : Bool) (s : Score) (vn : VisualNote) :
    (processVN c s vn).claviers = s.claviers := by
  simp only [processVN]
  split_ifs <;> simp [cqg_claviers, mo_claviers]

theorem processVN_velocity (c : Bool) (s : Score) (vn : VisualNote) :
    (processVN c s vn).velocity = s.velocity := by
  simp only [processVN]
  split_ifs <;> simp [cqg_velocity, mo_velocity]

theorem processVN_xdmap (c : Bool) (s : Score) (vn : VisualNote) :
    (processVN c s vn).visualNotes.map (fun v => (v.x, v.duration)) =
      s.visualNotes.map (fun v => (v.x, v.duration)) ++ [(s.gen.x, vn.duration)] := by
  simp only [processVN]
  split_ifs <;> simp [cqg_xdmap, mo_visualNotes]

theorem LinkedAux_append (vel : ℚ) :
    ∀ (l : List (ℚ × ℚ)) (px pd g d : ℚ),
      LinkedAux vel px pd l g → LinkedAux vel px pd (l ++ [(g, d)]) (g + d * vel) := by
  intro l
  induction l with
  | nil =>
      intro px pd g d h
      exact ⟨h, rfl⟩
  | cons q rest ih =>
      obtain ⟨qx, qd⟩ := q
      intro px pd g d h
      exact ⟨h.1, ih qx qd g d h.2⟩

theorem Linked_append (vel : ℚ) (l : List (ℚ × ℚ)) (g d : ℚ)
    (h : Linked vel l g) : Linked vel (l ++ [(g, d)]) (g + d * vel) := by
  cases l with
  | nil => exact rfl
  | cons q rest =>
      obtain ⟨qx, qd⟩ := q
      exact LinkedAux_append vel rest qx qd g d h

theorem LinkedAux_chain (vel : ℚ) :
    ∀ (l : List (ℚ × ℚ)) (px pd g : ℚ), LinkedAux vel px pd l g →
      ∀ i, i + 1 < (((px, pd) :: l) : List (ℚ × ℚ)).length →
        ((((px, pd) :: l).getD (i + 1) (0, 0)).1 =
          (((px, pd) :: l).getD i (0, 0)).1 +
            (((px, pd) :: l).getD i (0, 0)).2 * vel) := by
  intro l
  induction l with
  | nil =>
      intro px pd g _ i hi
      simp at hi
  | cons q rest ih =>
      obtain ⟨qx, qd⟩ := q
      intro px pd g h i hi
      cases i with
      | zero => simpa using h.1
      | succ j =>
          simp only [List.getD_cons_succ]
          refine ih qx qd g h.2 j ?_
          simp only [List.length_cons] at hi ⊢
          omega

theorem Linked_chain (vel : ℚ) (l : List (ℚ × ℚ)) (g : ℚ) (h : Linked vel l g) :
    ∀ i, i + 1 < l.length →
      (l.getD (i + 1) (0, 0)).1 =
        (l.getD i (0, 0)).1 + (l.getD i (0, 0)).2 * vel := by
  cases l with
  | nil => intro i hi; simp at hi
  | cons q rest =>
      obtain ⟨qx, qd⟩ := q
      exact LinkedAux_chain vel rest qx qd g h

theorem getD_map {α β : Type _} (f : α → β) (l : List α) (i : Nat) (d : α) :
    (l.map f).getD i (f d) = f (l.getD i d) := by
  simp only [List.getD_eq_getElem?_getD, List.getElem?_map]
  cases l[i]? <;> rfl

theorem getD_mem {α : Type _} (l : List α) (i : Nat) (d : α) (h : i < l.length) :
    l.getD i d ∈ l := by
  rw [List.getD_eq_getElem?_getD, List.getElem?_eq_getElem h]
  exact List.getElem_mem h

theorem processVN_good (vel : ℚ) (c : Bool) (s : Score) (vn : VisualNote)
    (hs : GoodState vel s) (hvn : 0 < vn.duration) :
    GoodState vel (processVN c s vn) := by
  obtain ⟨h1, h2, h3, h4⟩ := hs
  refine ⟨?_, ?_, ?_, ?_⟩
  · rw [processVN_velocity]; exact h1
  · rw [processVN_tempo]; exact h2
  · rw [processVN_xdmap, processVN_x, h1]
    exact Linked_append vel _ _ _ h3
  · rw [processVN_xdmap]
    intro q hq
    rcases List.mem_append.mp hq with h | h
    · exact h4 q h
    · rw [List.mem_singleton.mp h]
      exact hvn

theorem registerNote_good (vel : ℚ) (s : Score) (n : NoteAction)
    (hs : GoodState vel s) (_hd : 1 ≤ n.duration) :
    GoodState vel (registerNote s n) := by
  have hpos : ∀ vn ∈ (createVisualNotes s n).2, 0 < vn.duration :=
    createVisualNotes_pos s n hs.2.1
  have hcv : GoodState vel (createVisualNotes s n).1 := hs
  simp only [registerNote]
  split_ifs with hc1 hc2
  · exact foldl_preserve _ (GoodState vel) (fun vn => 0 < vn.duration) _ _
      hcv hpos (fun t x ht hx => processVN_good vel _ t x ht hx)
  · exact foldl_preserve _ (GoodState vel) (fun vn => 0 < vn.duration) _ _
      hcv hpos (fun t x ht hx => processVN_good vel _ t x ht hx)
  · exact foldl_preserve _ (GoodState vel) (fun vn => 0 < vn.duration) _ _
      hcv hpos (fun t x ht hx => processVN_good vel _ t x ht hx)

theorem applyAction_good (vel : ℚ) (s : Score) (a : MusicAction)
    (hs : GoodState vel s) (ha : WellFormedAction a) :
    GoodState vel (applyAction s a) := by
  cases a with
  | note n => exact registerNote_good vel s n hs ha
  | tempo t => exact ⟨hs.1, ha, hs.2.2.1, hs.2.2.2⟩

theorem stop_core (s : Score) :
    (stop s).visualNotes = s.visualNotes ∧ (stop s).gen = s.gen ∧
    (stop s).velocity = s.velocity ∧ (stop s).claviers = s.claviers :=
  ⟨rfl, rfl, rfl, rfl⟩

theorem checkNoteVisualization_core (s : Score) :
    (checkNoteVisualization s).visualNotes = s.visualNotes ∧
    (checkNoteVisualization s).gen = s.gen ∧
    (checkNoteVisualization s).velocity = s.velocity ∧
    (checkNoteVisualization s).claviers = s.claviers := by
  simp only [checkNoteVisualization]
  split_ifs <;> exact ⟨rfl, rfl, rfl, rfl⟩

theorem checkNoteLine_core (s : Score) :
    (checkNoteLine s).visualNotes = s.visualNotes ∧
    (checkNoteLine s).gen = s.gen ∧
    (checkNoteLine s).velocity = s.velocity ∧
    (checkNoteLine s).claviers = s.claviers := by
  simp only [checkNoteLine]
  split_ifs <;> exact ⟨rfl, rfl, rfl, rfl⟩

theorem admitQuaverLoop_core :
    ∀ (fuel : Nat) (s : Score) (l0 : Nat),
      (admitQuaverLoop s l0 fuel).visualNotes = s.visualNotes ∧
      (admitQuaverLoop s l0 fuel).gen = s.gen ∧
      (admitQuaverLoop s l0 fuel).velocity = s.velocity ∧
      (admitQuaverLoop s l0 fuel).claviers = s.claviers := by
  intro fuel
  induction fuel with
  | zero => intro s l0; exact ⟨rfl, rfl, rfl, rfl⟩
  | succ m ih =>
      intro s l0
      unfold admitQuaverLoop
      split_ifs
      · exact ih _ l0
      · exact ⟨rfl, rfl, rfl, rfl⟩
      · exact ⟨rfl, rfl, rfl, rfl⟩

theorem checkQuaverSection_core (s : Score) :
    (checkQuaverSection s).visualNotes = s.visualNotes ∧
    (checkQuaverSection s).gen = s.gen ∧
    (checkQuaverSection s).velocity = s.velocity ∧
    (checkQuaverSection s).claviers = s.claviers := by
  unfold checkQuaverSection
  obtain ⟨h1, h2, h3, h4⟩ := admitQuaverLoop_core 4 s s.lastSect
  exact ⟨h1, h2, h3, h4⟩

theorem setMusicActions_core (s : Score) (actions : List MusicAction) :
    (setMusicActions s actions).visualNotes =
        (actions.foldl applyAction
          { s with gen := initialGen s.playerLinePos }).visualNotes ∧
    (setMusicActions s actions).gen =
        (actions.foldl applyAction
          { s with gen := initialGen s.playerLinePos }).gen ∧
    (setMusicActions s actions).velocity =
        (actions.foldl applyAction
          { s with gen := initialGen s.playerLinePos }).velocity ∧
    (setMusicActions s actions).claviers =
        (actions.foldl applyAction
          { s with gen := initialGen s.playerLinePos }).claviers := by
  unfold setMusicActions
  obtain ⟨a1, a2, a3, a4⟩ := checkNoteVisualization_core
    (actions.foldl applyAction { s with gen := initialGen s.playerLinePos })
  obtain ⟨b1, b2, b3, b4⟩ := checkNoteLine_core
    (checkNoteVisualization
      (actions.foldl applyAction { s with gen := initialGen s.playerLinePos }))
  obtain ⟨c1, c2, c3, c4⟩ := checkQuaverSection_core
    (checkNoteLine (checkNoteVisualization
      (actions.foldl applyAction { s with gen := initialGen s.playerLinePos })))
  exact ⟨c1.trans (b1.trans a1), c2.trans (b2.trans a2),
    c3.trans (b3.trans a3), c4.trans (b4.trans a4)⟩

theorem goodState_final (vel width : ℚ) (actions : List MusicAction)
    (hacts : ∀ a ∈ actions, WellFormedAction a) :
    GoodState vel (actions.foldl applyAction
      { initialScore vel width with
        gen := initialGen (initialScore vel width).playerLinePos }) := by
  refine foldl_preserve applyAction (GoodState vel) WellFormedAction actions _
    ?_ hacts (fun t a ht ha => applyAction_good vel t a ht ha)
  exact ⟨rfl, by norm_num [initialGen], trivial, by simp [initialScore]⟩

theorem xd_getD (l : List VisualNote) (i : Nat) :
    (l.map (fun v => (v.x, v.duration))).getD i (0, 0) =
      ((l.getD i default).x, (l.getD i default).duration) := by
  rw [show ((0, 0) : ℚ × ℚ) =
      ((default : VisualNote).x, (default : VisualNote).duration) from rfl]
  exact getD_map (fun v => (v.x, v.duration)) l i default

theorem chain_mono (vel : ℚ) (hvel : 0 < vel) (notes : List VisualNote)
    (hchain : ∀ i, i + 1 < notes.length →
      (notes.getD (i + 1) default).x =
        (notes.getD i default).x + (notes.getD i default).duration * vel)
    (hpos : ∀ i, i < notes.length → 0 < (notes.getD i default).duration) :
    ∀ i j, i ≤ j → j < notes.length →
      (notes.getD i default).x ≤ (notes.getD j default).x := by
  have H : ∀ (i k : Nat), i + k < notes.length →
      (notes.getD i default).x ≤ (notes.getD (i + k) default).x := by
    intro i k
    induction k with
    | zero => intro _; exact le_refl _
    | succ m ih =>
        intro h
        have h1 : i + m < notes.length := by omega
        have h2 : i + m + 1 < notes.length := by omega
        have hstep := hchain (i + m) h2
        have hd := hpos (i + m) h1
        have hle : (notes.getD (i + m) default).x ≤
            (notes.getD (i + m + 1) default).x := by
          rw [hstep]
          nlinarith [mul_pos hd hvel]
        exact le_trans (ih (by omega)) hle
  intro i j hij hj
  obtain ⟨k, rfl⟩ : ∃ k, j = i + k := ⟨j - i, by omega⟩
  exact H i k hj

/-- Claim C8 (confirmed): for a fixed positive `playingVelocity` and any
submitted action list of data-model values (notes with positive integer
durations, tempo changes with positive bpm), the `x` coordinates of the
produced `VisualNote` sequence are non-decreasing across the whole
timeline, and each note's `x` exceeds the previous note's `x` exactly by
that previous note's duration in seconds times the velocity.  The write
cursor never reads the playback position, so `x` is independent of it. -/
theorem c8_x_monotone (vel width : ℚ) (hvel : 0 < vel)
    (actions : List MusicAction)
    (hacts : ∀ a ∈ actions, WellFormedAction a) :
    (∀ i, i + 1 < (setMusicActions (initialScore vel width) actions).visualNotes.length →
      ((setMusicActions (initialScore vel width) actions).visualNotes.getD (i + 1) default).x =
        ((setMusicActions (initialScore vel width) actions).visualNotes.getD i default).x +
          ((setMusicActions (initialScore vel width) actions).visualNotes.getD i default).duration * vel) ∧
    (∀ i j, i ≤ j →
      j < (setMusicActions (initialScore vel width) actions).visualNotes.length →
      ((setMusicActions (initialScore vel width) actions).visualNotes.getD i default).x ≤
        ((setMusicActions (initialScore vel width) actions).visualNotes.getD j default).x) := by
  obtain ⟨g1, g2, g3, g4⟩ := goodState_final vel width actions hacts
  obtain ⟨hv, _, _, _⟩ := setMusicActions_core (initialScore vel width) actions
  have hchain : ∀ i,
      i + 1 < (setMusicActions (initialScore vel width) actions).visualNotes.length →
      ((setMusicActions (initialScore vel width) actions).visualNotes.getD (i + 1) default).x =
        ((setMusicActions (initialScore vel width) actions).visualNotes.getD i default).x +
          ((setMusicActions (initialScore vel width) actions).visualNotes.getD i default).duration * vel := by
    intro i hi
    rw [hv] at hi ⊢
    have hlen : i + 1 <
        ((actions.foldl applyAction
          { initialScore vel width with
            gen := initialGen (initialScore vel width).playerLinePos }).visualNotes.map
              (fun v => (v.x, v.duration))).length := by
      rw [List.length_map]; exact hi
    have hc := Linked_chain vel _ _ g3 i hlen
    rw [xd_getD, xd_getD] at hc
    exact hc
  have hpos : ∀ i,
      i < (setMusicActions (initialScore vel width) actions).visualNotes.length →
      0 < ((setMusicActions (initialScore vel width) actions).visualNotes.getD i default).duration := by
    intro i hi
    rw [hv] at hi ⊢
    have hmem := getD_mem _ i (default : VisualNote) hi
    have := g4 _ (List.mem_map_of_mem (fun v => (v.x, v.duration)) hmem)
    simpa using this
  exact ⟨hchain, chain_mono vel hvel _ hchain hpos⟩

/-- Witness for C8: two eighth notes at velocity 200; the second note's
`x` is the first note's `x` plus its quarter-second duration times 200. -/
theorem c8_x_monotone_witness :
    (0 : ℚ) < 200 ∧
    ((setMusicActions (initialScore 200 500)
        [MusicAction.note ⟨0, 3, 8⟩, MusicAction.note ⟨2, 3, 8⟩]).visualNotes.getD 1 default).x =
      ((setMusicActions (initialScore 200 500)
        [MusicAction.note ⟨0, 3, 8⟩, MusicAction.note ⟨2, 3, 8⟩]).visualNotes.getD 0 default).x +
        ((setMusicActions (initialScore 200 500)
          [MusicAction.note ⟨0, 3, 8⟩, MusicAction.note ⟨2, 3, 8⟩]).visualNotes.getD 0 default).duration * 200 := by
  refine ⟨by norm_num, ?_⟩
  refine (c8_x_monotone 200 500 (by norm_num)
    [MusicAction.note ⟨0, 3, 8⟩, MusicAction.note ⟨2, 3, 8⟩] ?_).1 0 ?_
  · intro a ha
    rcases List.mem_cons.mp ha with rfl | ha
    · simp [WellFormedAction]
    · rcases List.mem_cons.mp ha with rfl | ha
      · simp [WellFormedAction]
      · simp at ha
  · norm_num [setMusicActions, applyAction, registerNote, createVisualNotes, processVN,
      maybeOpenQuaverSection, closeQuaverGroup, createQuaverSection, cqsScan, cqsStep,
      sectionDirectionOf, timeFactor, initialScore, initialGen, symbolIds, symbolStep,
      noteFraqDuration, noteDuration, noteSymbols, noteVerticalPos, chooseSymbol, clavierFor,
      getNoteVerticalPos, VisualNote.make, VisualNote.changeSymbol, scoreDims,
      checkNoteVisualization, checkNoteLine, checkQuaverSection, admitQuaverLoop,
      advanceWhile, advanceWhileAux, List.enum, List.enumFrom, stop, reset,
      List.range_succ, List.range_zero]

theorem foldl_processVN (c : Bool) :
    ∀ (vns : List VisualNote) (s : Score),
      ((vns.foldl (processVN c) s).gen.time =
        s.gen.time + (vns.map (fun v => v.duration * 1000)).sum) ∧
      ((vns.foldl (processVN c) s).claviers = s.claviers) ∧
      ((vns.foldl (processVN c) s).gen.currentTempo = s.gen.currentTempo) := by
  intro vns
  induction vns with
  | nil => intro s; exact ⟨by simp, rfl, rfl⟩
  | cons vn rest ih =>
      intro s
      rw [List.foldl_cons]
      obtain ⟨h1, h2, h3⟩ := ih (processVN c s vn)
      rw [processVN_time] at h1
      rw [processVN_claviers] at h2
      rw [processVN_tempo] at h3
      refine ⟨?_, h2, h3⟩
      rw [h1, List.map_cons, List.sum_cons]
      ring

theorem mem_getLast?_append_singleton {α : Type _} (l : List α) (x a : α)
    (h : a ∈ (l ++ [x]).getLast?) : a = x := by
  rw [List.getLast?_append] at h
  simp at h
  exact h.symm

theorem mem_head?_singleton {α : Type _} (x a : α)
    (h : a ∈ ([x] : List α).head?) : a = x := by
  simp at h
  exact h.symm

theorem mem_getLast?_of_eq {α : Type _} {l : List α} {c a : α}
    (hc : l.getLast? = some c) (h : a ∈ l.getLast?) : a = c := by
  rw [hc] at h
  simp at h
  exact h.symm

theorem registerNote_clav (s : Score) (n : NoteAction)
    (hs : ClavGood s) (hd : 1 ≤ n.duration) : ClavGood (registerNote s n) := by
  obtain ⟨ht, hcl1, hcl2, hlast, hnil⟩ := hs
  have hpos : ∀ vn ∈ (createVisualNotes s n).2, 0 < vn.duration :=
    createVisualNotes_pos s n ht
  have hne : (createVisualNotes s n).2 ≠ [] := createVisualNotes_ne_nil s n hd
  have hsum : 0 < ((createVisualNotes s n).2.map (fun v => v.duration * 1000)).sum := by
    apply List.sum_pos
    · intro x hx
      rcases List.mem_map.mp hx with ⟨vn, hvn, rfl⟩
      exact mul_pos (hpos vn hvn) (by norm_num)
    · simpa [List.map_eq_nil_iff] using hne
  simp only [registerNote]
  split_ifs with h1 h2
  · have hempty : s.claviers = [] := by
      have hlen : (createVisualNotes s n).1.claviers.length = 0 := by simpa using h1
      simpa [List.length_eq_zero] using hlen
    obtain ⟨f1, f2, f3⟩ := foldl_processVN false (createVisualNotes s n).2
      { (createVisualNotes s n).1 with
        claviers := (createVisualNotes s n).1.claviers ++
          [⟨(createVisualNotes s n).1.gen.clavier, 0⟩] }
    refine ⟨?_, ?_, ?_, ?_, ?_⟩
    · rw [f3]; exact ht
    · rw [f2]
      show List.Chain' _ (s.claviers ++ _)
      rw [hempty]
      exact List.chain'_singleton _
    · rw [f2]
      show List.Chain' _ (s.claviers ++ _)
      rw [hempty]
      exact List.chain'_singleton _
    · rw [f1, f2]
      intro c0 hc0
      have hzero : s.gen.time = 0 := hnil hempty
      have hc0x : c0 = (⟨(createVisualNotes s n).1.gen.clavier, 0⟩ : ClefRegion) :=
        mem_getLast?_append_singleton _ _ _ hc0
      show c0.time < s.gen.time + _
      rw [hc0x, hzero]
      simpa using hsum
    · rw [f2]
      intro habs
      exact absurd habs (by simp)
  · have hnonempty : s.claviers ≠ [] := by
      intro habs
      apply h1
      have hlen : (createVisualNotes s n).1.claviers.length = 0 := by
        show s.claviers.length = 0
        rw [habs]; rfl
      simpa using hlen
    obtain ⟨c0, hc0⟩ : ∃ c0, s.claviers.getLast? = some c0 := by
      cases hcl : s.claviers.getLast? with
      | none => exact absurd (List.getLast?_eq_none_iff.mp hcl) hnonempty
      | some c0 => exact ⟨c0, rfl⟩
    have hc0time : c0.time < s.gen.time := hlast c0 (by rw [hc0]; rfl)
    have hc0clav : c0.clavier ≠ (createVisualNotes s n).1.gen.clavier := by
      intro habs
      apply h2
      show ((createVisualNotes s n).1.claviers.getLastD default).clavier = _
      have hgl : (createVisualNotes s n).1.claviers.getLastD default = c0 := by
        show s.claviers.getLastD default = c0
        rw [List.getLastD_eq_getLast?, hc0]
        rfl
      rw [hgl, habs]
    obtain ⟨f1, f2, f3⟩ := foldl_processVN true (createVisualNotes s n).2
      { (createVisualNotes s n).1 with
        claviers := (createVisualNotes s n).1.claviers ++
          [⟨(createVisualNotes s n).1.gen.clavier, (createVisualNotes s n).1.gen.time⟩] }
    refine ⟨?_, ?_, ?_, ?_, ?_⟩
    · rw [f3]; exact ht
    · rw [f2]
      refine List.chain'_append.mpr ⟨hcl1, List.chain'_singleton _, ?_⟩
      intro a ha b hb
      have hab : a = c0 := mem_getLast?_of_eq hc0 ha
      have hbb : b = (⟨(createVisualNotes s n).1.gen.clavier,
          (createVisualNotes s n).1.gen.time⟩ : ClefRegion) :=
        mem_head?_singleton _ _ hb
      rw [hab, hbb]
      exact hc0time
    · rw [f2]
      refine List.chain'_append.mpr ⟨hcl2, List.chain'_singleton _, ?_⟩
      intro a ha b hb
      have hab : a = c0 := mem_getLast?_of_eq hc0 ha
      have hbb : b = (⟨(createVisualNotes s n).1.gen.clavier,
          (createVisualNotes s n).1.gen.time⟩ : ClefRegion) :=
        mem_head?_singleton _ _ hb
      rw [hab, hbb]
      exact hc0clav
    · rw [f1, f2]
      intro c1 hc1
      have hc1x : c1 = (⟨(createVisualNotes s n).1.gen.clavier,
          (createVisualNotes s n).1.gen.time⟩ : ClefRegion) :=
        mem_getLast?_append_singleton _ _ _ hc1
      rw [hc1x]
      show s.gen.time < s.gen.time + _
      simpa using hsum
    · rw [f2]
      intro habs
      exact absurd habs (by simp)
  · obtain ⟨f1, f2, f3⟩ := foldl_processVN false (createVisualNotes s n).2
      (createVisualNotes s n).1
    refine ⟨?_, ?_, ?_, ?_, ?_⟩
    · rw [f3]; exact ht
    · rw [f2]; exact hcl1
    · rw [f2]; exact hcl2
    · rw [f1, f2]
      intro c1 hc1
      have hlt := hlast c1 hc1
      show c1.time < s.gen.time + _
      calc c1.time < s.gen.time := hlt
        _ ≤ s.gen.time + _ := le_add_of_nonneg_right (le_of_lt hsum)
    · rw [f2]
      intro habs
      exfalso
      apply h1
      have hlen : (createVisualNotes s n).1.claviers.length = 0 := by
        rw [habs]; rfl
      simpa using hlen

theorem applyAction_clav (s : Score) (a : MusicAction)
    (hs : ClavGood s) (ha : WellFormedAction a) : ClavGood (applyAction s a) := by
  cases a with
  | note n => exact registerNote_clav s n hs ha
  | tempo t => exact ⟨ha, hs.2.1, hs.2.2.1, hs.2.2.2.1, hs.2.2.2.2⟩

/-- Claim C9 (confirmed): for every submitted action list of data-model
values (notes with positive integer durations, tempo changes with positive
bpm), the produced clef-region list has strictly increasing
`activationTime` values, and no two consecutive entries share the same
clef (at most one entry per contiguous run of same-clef notes). -/
theorem c9_clavier_regions (vel width : ℚ) (actions : List MusicAction)
    (hacts : ∀ a ∈ actions, WellFormedAction a) :
    List.Chain' (fun a b => a.time < b.time)
      (setMusicActions (initialScore vel width) actions).claviers ∧
    List.Chain' (fun a b => a.clavier ≠ b.clavier)
      (setMusicActions (initialScore vel width) actions).claviers := by
  have hfin : ClavGood (actions.foldl applyAction
      { initialScore vel width with
        gen := initialGen (initialScore vel width).playerLinePos }) := by
    refine foldl_preserve applyAction ClavGood WellFormedAction actions _
      ⟨?_, ?_, ?_, ?_, ?_⟩ hacts (fun t a ht ha => applyAction_clav t a ht ha)
    · norm_num [initialGen]
    · trivial
    · trivial
    · intro c0 hc0
      simp [initialScore] at hc0
    · intro _
      rfl
  obtain ⟨_, _, _, hcl⟩ := setMusicActions_core (initialScore vel width) actions
  rw [hcl]
  exact ⟨hfin.2.1, hfin.2.2.1⟩

/-- Witness for C9: a bass-clef note followed by a treble-clef note yields
two clef regions with strictly increasing activation times and distinct
clefs. -/
theorem c9_clavier_regions_witness :
    List.Chain' (fun a b => a.time < b.time)
      (setMusicActions (initialScore 200 500)
        [MusicAction.note ⟨0, 1, 8⟩, MusicAction.note ⟨0, 4, 8⟩]).claviers ∧
    List.Chain' (fun a b => a.clavier ≠ b.clavier)
      (setMusicActions (initialScore 200 500)
        [MusicAction.note ⟨0, 1, 8⟩, MusicAction.note ⟨0, 4, 8⟩]).claviers := by
  refine c9_clavier_regions 200 500
    [MusicAction.note ⟨0, 1, 8⟩, MusicAction.note ⟨0, 4, 8⟩] ?_
  intro a ha
  rcases List.mem_cons.mp ha with rfl | ha
  · simp [WellFormedAction]
  · rcases List.mem_cons.mp ha with rfl | ha
    · simp [WellFormedAction]
    · simp at ha

/-- Claim C10 (confirmed): a note registered while the current tempo is
`bpm` produces visual notes whose duration in seconds equals the
symbol's base duration at the 120-bpm reference multiplied by `120/bpm`;
doubling the tempo halves every produced duration; and the beaming
threshold (`noteDuration[3] * timeFactor`) is scaled by the same
`120/bpm` factor, also halving when the tempo doubles. -/
theorem c10_tempo_scaling (bpm : ℚ) (hbpm : 0 < bpm) (s t : Score)
    (n : NoteAction) (hs : s.gen.currentTempo = bpm)
    (ht : t.gen.currentTempo = 2 * bpm) :
    ((createVisualNotes s n).2.map VisualNote.duration =
      (symbolIds n.duration).map
        (fun id => noteDuration.getD id 0 * (120 / bpm))) ∧
    ((createVisualNotes t n).2.map VisualNote.duration =
      ((createVisualNotes s n).2.map VisualNote.duration).map (· / 2)) ∧
    timeFactor (2 * bpm) = timeFactor bpm / 2 ∧
    noteDuration.getD 3 0 * timeFactor (2 * bpm) =
      (noteDuration.getD 3 0 * timeFactor bpm) / 2 := by
  have hb : bpm ≠ 0 := ne_of_gt hbpm
  have hSdur : (createVisualNotes s n).2.map VisualNote.duration =
      (symbolIds n.duration).map
        (fun id => noteDuration.getD id 0 * (120 / bpm)) := by
    rw [createVisualNotes_snd, List.map_map]
    apply List.map_congr_left
    intro id hid
    show (chooseSymbol id _).duration * (120 / s.gen.currentTempo) = _
    rw [chooseSymbol_duration id (symbolIds_lt7 n.duration id hid), hs]
  have hTdur : (createVisualNotes t n).2.map VisualNote.duration =
      (symbolIds n.duration).map
        (fun id => noteDuration.getD id 0 * (120 / (2 * bpm))) := by
    rw [createVisualNotes_snd, List.map_map]
    apply List.map_congr_left
    intro id hid
    show (chooseSymbol id _).duration * (120 / t.gen.currentTempo) = _
    rw [chooseSymbol_duration id (symbolIds_lt7 n.duration id hid), ht]
  have htf : timeFactor (2 * bpm) = timeFactor bpm / 2 := by
    unfold timeFactor
    rw [div_div, mul_comm]
  refine ⟨hSdur, ?_, htf, ?_⟩
  · rw [hTdur, hSdur, List.map_map]
    apply List.map_congr_left
    intro id _
    show noteDuration.getD id 0 * (120 / (2 * bpm)) =
      (noteDuration.getD id 0 * (120 / bpm)) / 2
    rw [show (120 : ℚ) / (2 * bpm) = (120 / bpm) / 2 from by
      rw [div_div, mul_comm], mul_div_assoc]
  · rw [htf, mul_div_assoc]

/-- Witness for C10 at `bpm = 120` with an eighth note: at 240 bpm the
produced duration is half the duration produced at 120 bpm, and the
beaming threshold halves likewise. -/
theorem c10_tempo_scaling_witness :
    (0 : ℚ) < 120 ∧
    (((createVisualNotes (initialScore 200 500) ⟨0, 3, 8⟩).2.map VisualNote.duration =
      (symbolIds 8).map (fun id => noteDuration.getD id 0 * (120 / 120))) ∧
    ((createVisualNotes doubleTempoScore ⟨0, 3, 8⟩).2.map VisualNote.duration =
      ((createVisualNotes (initialScore 200 500) ⟨0, 3, 8⟩).2.map
        VisualNote.duration).map (· / 2)) ∧
    timeFactor (2 * 120) = timeFactor 120 / 2 ∧
    noteDuration.getD 3 0 * timeFactor (2 * 120) =
      (noteDuration.getD 3 0 * timeFactor 120) / 2) :=
  ⟨by norm_num,
    c10_tempo_scaling 120 (by norm_num) (initialScore 200 500) doubleTempoScore
      ⟨0, 3, 8⟩ rfl (by norm_num [doubleTempoScore, initialGen])⟩
